import Mathlib

/-!
Verification of the FNOL (First Notice of Loss) extraction-and-routing core
(`src/processor.ts`).  Strings are modelled as `List Char`; JavaScript regex
matching, `parseFloat`, `split`, `trim` and truthiness are embedded explicitly.
-/

namespace Policy

/-- Strings of the embedded program. -/
abbrev Str := List Char

/-- ECMAScript LineTerminator characters (LF, CR, U+2028, U+2029). -/
def isLineTerm (c : Char) : Bool :=
  c.toNat = 0xA || c.toNat = 0xD || c.toNat = 0x2028 || c.toNat = 0x2029

/-- ECMAScript `\s` character class: WhiteSpace plus LineTerminator
(TAB, LF, VT, FF, CR, SP, NBSP, ZWNBSP, the Zs category, U+2028/9). -/
def isJsSpace (c : Char) : Bool :=
  let n := c.toNat
  n = 0x9 || n = 0xA || n = 0xB || n = 0xC || n = 0xD || n = 0x20 ||
  n = 0xA0 || n = 0x1680 || (0x2000 ≤ n && n ≤ 0x200A) ||
  n = 0x2028 || n = 0x2029 || n = 0x202F || n = 0x205F ||
  n = 0x3000 || n = 0xFEFF

/-- `String.prototype.trim`: strip `\s` characters from both ends. -/
def jsTrim (s : Str) : Str :=
  ((s.dropWhile isJsSpace).reverse.dropWhile isJsSpace).reverse

/-- Case-insensitive character comparison, as JS regex `i`-flag canonicalizes
ASCII letters (the labels are all ASCII). -/
def charCI (a b : Char) : Bool := a.toLower = b.toLower

/-- `needle` is a prefix of `hay` (JS `String.prototype.startsWith`-style). -/
def startsWithStr : Str → Str → Bool
  | [], _ => true
  | _ :: _, [] => false
  | a :: as_, b :: bs => a = b && startsWithStr as_ bs

/-- `String.prototype.includes`: `needle` occurs as a contiguous substring. -/
def containsSub (needle : Str) : Str → Bool
  | [] => startsWithStr needle []
  | c :: cs => startsWithStr needle (c :: cs) || containsSub needle cs

/-- Greedy `\s*` followed by continuation `k`, with regex backtracking:
consume as much whitespace as possible first, retrying shorter runs on
failure.  Models the `\s*` pieces of the extraction regex. -/
def wsThen (k : Str → Option Str) : Str → Option Str
  | [] => k []
  | c :: cs =>
    if isJsSpace c then
      match wsThen k cs with
      | some r => some r
      | none => k (c :: cs)
    else k (c :: cs)

/-- Regex `(.+)` with nothing after it: at least one non-LineTerminator
character; the (greedy) capture is the maximal run of non-terminators. -/
def dotPlus : Str → Option Str
  | [] => none
  | c :: cs =>
    if isLineTerm c then none
    else some (c :: cs.takeWhile (fun x => !isLineTerm x))

/-- Match the interpolated field label of the regex, character by character.
A `.` in the label is a regex metacharacter (any non-LineTerminator);
all other characters the labels use are matched literally, case-insensitively.
Returns the remaining text after the label. -/
def labelCharMatch (pc tc : Char) : Bool :=
  if pc = '.' then !isLineTerm tc else charCI pc tc

/-- Consume `label` (per `labelCharMatch`) at the head of the text. -/
def matchLabel : Str → Str → Option Str
  | [], s => some s
  | _ :: _, [] => none
  | pc :: ps, tc :: ts =>
    if labelCharMatch pc tc then matchLabel ps ts else none

/-- The literal `-` of the regex: consume a dash, then continue with `k`. -/
def dashThen (k : Str → Option Str) : Str → Option Str
  | [] => none
  | c :: cs => if c = '-' then k cs else none

/-- The literal `:` of the regex: consume a colon, then continue with `k`. -/
def colonThen (k : Str → Option Str) : Str → Option Str
  | [] => none
  | c :: cs => if c = ':' then k cs else none

/-- Attempt the body `\s*-\s*LABEL:\s*(.+)` of the extraction regex at the
current position; returns the capture group on success. -/
def matchAt (label : Str) (s : Str) : Option Str :=
  wsThen (dashThen (wsThen (fun s3 =>
    (matchLabel label s3).bind (colonThen (wsThen dotPlus))))) s

/-- Scan for the first match of the anchored regex (`m` flag): `^` may fire
at position 0 and right after every LineTerminator; earliest full match wins. -/
def findFrom (label : Str) : Bool → Str → Option Str
  | atStart, [] => if atStart then matchAt label [] else none
  | atStart, c :: cs =>
    match (if atStart then matchAt label (c :: cs) else none) with
    | some cap => some cap
    | none => findFrom label (isLineTerm c) cs

/-- `extractField` of `src/processor.ts`: match
`new RegExp("^\\s*-\\s*" + fieldName + ":\\s*(.+)", "im")` against the text and
return `match[1].trim()`, or `null` when there is no match.  (The source guards
on `match[1]` before trimming; `(.+)` makes the raw capture non-empty whenever
a match exists, so the guard always passes and the trimmed result may be
empty.) -/
def extractField (text : Str) (fieldName : Str) : Option Str :=
  (findFrom fieldName true text).map jsTrim

/-- Characters kept by `damageString.replace(/[^0-9.]/g, "")`. -/
def isNumChar (c : Char) : Bool := c.isDigit || c = '.'

/-- Value of a digit string (most significant first). -/
def digitsToNat (ds : Str) : Nat :=
  ds.foldl (fun a c => a * 10 + (c.toNat - 48)) 0

/-- `parseFloat` on a string of digits and dots (the shape produced by the
strip step): parse the longest leading `Digits [ . Digits ]` prefix as an
exact decimal; `none` models `NaN`.  The numeric value is kept as a rational,
the exact value of the decimal literal. -/
def parseStripped (s : Str) : Option ℚ :=
  let d1 := s.takeWhile Char.isDigit
  match s.dropWhile Char.isDigit with
  | [] => if d1.isEmpty then none else some (digitsToNat d1 : ℚ)
  | c :: r2 =>
    if c = '.' then
      let d2 := r2.takeWhile Char.isDigit
      if d1.isEmpty && d2.isEmpty then none
      else some ((digitsToNat d1 : ℚ) + (digitsToNat d2 : ℚ) / (10 : ℚ) ^ d2.length)
    else if d1.isEmpty then none else some (digitsToNat d1 : ℚ)

/-- `parseEstimate` of `src/processor.ts`: `null` in, or an empty string
(falsy in `if (!damageString)`), gives `null`; otherwise strip every
character that is not a digit or a dot and `parseFloat` the remainder,
with `NaN` mapped to `null`. -/
def parseEstimate : Option Str → Option ℚ
  | none => none
  | some s => if s.isEmpty then none else parseStripped (s.filter isNumChar)

/-- `String.prototype.split(',')`: split on commas; never returns an empty
list (splitting the empty string yields `[""]`). -/
def splitComma : Str → List Str
  | [] => [[]]
  | c :: cs =>
    if c = ',' then [] :: splitComma cs
    else
      match splitComma cs with
      | [] => [[c]]
      | t :: ts => (c :: t) :: ts

/-- The `ExtractedFields` record of `src/processor.ts`.  `Option` is the
absence marker (`null`); note `some []` models the empty string, which JS
treats as falsy. -/
structure ExtractedFields where
  policyNumber : Option Str
  policyholderName : Option Str
  effectiveDates : Option Str
  incidentDate : Option Str
  incidentTime : Option Str
  location : Option Str
  description : Option Str
  claimant : Option Str
  thirdParties : Option Str
  contactDetails : Option Str
  assetType : Option Str
  assetId : Option Str
  estimatedDamage : Option Str
  claimType : Option Str
  attachments : Option (List Str)
  initialEstimate : Option ℚ
deriving Repr

/-- The `RoutingResult` record. -/
structure RoutingResult where
  recommendedRoute : String
  reasoning : String
deriving Repr, DecidableEq

/-- JS truthiness of a nullable string: `null` and `""` are falsy. -/
def isTruthy : Option Str → Bool
  | some (_ :: _) => true
  | _ => false

/-- Lowercasing as used on the ASCII keywords/descriptions
(`toLowerCase`). -/
def lowerStr (s : Str) : Str := s.map Char.toLower

/-- The fraud keyword list of routing rule 2. -/
def fraudKeywords : List Str :=
  ["fraud".data, "inconsistent".data, "staged".data]

/-- Multiplicity of prime `p` in `n`, fuelled (used to print terminating
decimals). -/
def multOf (fuel p n : Nat) : Nat :=
  match fuel with
  | 0 => 0
  | f + 1 => if 2 ≤ p && n % p == 0 && n ≠ 0 then multOf f p (n / p) + 1 else 0

/-- Left-pad a digit string with zeros to length `k`. -/
def padZeros (k : Nat) (s : String) : String :=
  if s.length < k then String.mk (List.replicate (k - s.length) '0') ++ s else s

/-- Decimal rendering of a rational with 10-smooth denominator (the only
values `parseEstimate` produces); models JS number-to-string for the
terminating decimals that arise here. -/
def ratDisplay (q : ℚ) : String :=
  let k := max (multOf q.den 2 q.den) (multOf q.den 5 q.den)
  let scaled : Int := q.num * ((10 : Nat) ^ k : Nat) / (q.den : Int)
  let sign := if scaled < 0 then "-" else ""
  let n := scaled.natAbs
  if k = 0 then sign ++ toString n
  else sign ++ toString (n / 10 ^ k) ++ "." ++ padZeros k (toString (n % 10 ^ k))

/-- Template interpolation `$\x7bfields.initialEstimate\x7d`: `null` prints
as "null". -/
def estimateDisplay : Option ℚ → String
  | none => "null"
  | some q => ratDisplay q

/-- `getRoutingDecision` of `src/processor.ts`: the ordered rule chain.
Rule 4 compares `fields.initialEstimate! < 25000`; at runtime a `null`
estimate would coerce to `0` in the comparison and print as "null", which the
`getD 0` / `estimateDisplay` pair reproduces. -/
def getRoutingDecision (fields : ExtractedFields) (missing : List String) :
    RoutingResult :=
  if missing.length > 0 then
    { recommendedRoute := "Manual Review"
      reasoning := "Mandatory field(s) are missing or invalid: " ++
        String.intercalate ", " missing ++
        ". Claim requires manual data entry and validation." }
  else
    let description := lowerStr (fields.description.getD [])
    if fraudKeywords.any (fun keyword => containsSub keyword description) then
      { recommendedRoute := "Investigation Flag"
        reasoning := "The claim description contains keywords suggesting potential fraud. It will be routed to the special investigation unit." }
    else if containsSub "injury".data (lowerStr (fields.claimType.getD [])) then
      { recommendedRoute := "Specialist Queue"
        reasoning := "The claim is of type 'Injury' and requires handling by a specialist." }
    else if fields.initialEstimate.getD 0 < 25000 then
      { recommendedRoute := "Fast-track"
        reasoning := "The estimated damage of $" ++
          estimateDisplay fields.initialEstimate ++
          " is below the $25,000 threshold for automated processing." }
    else
      { recommendedRoute := "Standard Review"
        reasoning := "The claim does not meet the criteria for any specialized queue. It will proceed through the standard review process." }

/-- The field-extraction block of `processFNOL`. -/
def extractAll (text : Str) : ExtractedFields :=
  let attachmentsRaw := extractField text "Attachments".data
  let estimatedDamageRaw := extractField text "Estimated Damage".data
  { policyNumber := extractField text "Policy Number".data
    policyholderName := extractField text "Policyholder Name".data
    effectiveDates := extractField text "Effective Dates".data
    incidentDate := extractField text "Date".data
    incidentTime := extractField text "Time".data
    location := extractField text "Location".data
    description := extractField text "Description".data
    claimant := extractField text "Claimant".data
    thirdParties := extractField text "Third Parties".data
    contactDetails := extractField text "Contact Details".data
    assetType := extractField text "Asset Type".data
    assetId := extractField text "Asset ID".data
    estimatedDamage := estimatedDamageRaw
    claimType := extractField text "Claim Type".data
    attachments :=
      match attachmentsRaw with
      | some raw =>
        if raw.isEmpty then none else some ((splitComma raw).map jsTrim)
      | none => none
    initialEstimate := parseEstimate estimatedDamageRaw }

/-- The mandatory-field completeness check of `processFNOL`:
`!claimType` (null or empty string), `!attachments` (null; arrays are always
truthy), `initialEstimate === null`. -/
def missingFields (f : ExtractedFields) : List String :=
  (if isTruthy f.claimType then [] else ["Claim Type"]) ++
  (if f.attachments.isSome then [] else ["Attachments"]) ++
  (if f.initialEstimate.isSome then []
   else ["Initial Estimate (derived from Estimated Damage)"])

/-- Values stored in the output `extractedFields` JSON object. -/
inductive FieldVal where
  | null : FieldVal
  | str : Str → FieldVal
  | strList : List Str → FieldVal
  | num : ℚ → FieldVal
deriving Repr, DecidableEq

/-- A nullable string as a JSON field value. -/
def optStrVal : Option Str → FieldVal
  | none => FieldVal.null
  | some s => FieldVal.str s

/-- A nullable string list as a JSON field value. -/
def optListVal : Option (List Str) → FieldVal
  | none => FieldVal.null
  | some l => FieldVal.strList l

/-- A nullable number as a JSON field value. -/
def optNumVal : Option ℚ → FieldVal
  | none => FieldVal.null
  | some q => FieldVal.num q

/-- The `ExtractedFields` object as an ordered key/value list, in the
insertion order of the object literal of `processFNOL`. -/
def allPairs (f : ExtractedFields) : List (String × FieldVal) :=
  [("policyNumber", optStrVal f.policyNumber),
   ("policyholderName", optStrVal f.policyholderName),
   ("effectiveDates", optStrVal f.effectiveDates),
   ("incidentDate", optStrVal f.incidentDate),
   ("incidentTime", optStrVal f.incidentTime),
   ("location", optStrVal f.location),
   ("description", optStrVal f.description),
   ("claimant", optStrVal f.claimant),
   ("thirdParties", optStrVal f.thirdParties),
   ("contactDetails", optStrVal f.contactDetails),
   ("assetType", optStrVal f.assetType),
   ("assetId", optStrVal f.assetId),
   ("estimatedDamage", optStrVal f.estimatedDamage),
   ("claimType", optStrVal f.claimType),
   ("attachments", optListVal f.attachments),
   ("initialEstimate", optNumVal f.initialEstimate)]

/-- The `FNOLOutput` record. -/
structure FNOLOutput where
  extractedFields : List (String × FieldVal)
  missingFields : List String
  recommendedRoute : String
  reasoning : String
deriving Repr

/-- `processFNOL` of `src/processor.ts`: extract, check completeness, route,
and assemble the output with the derived `initialEstimate` deleted from the
display copy (`delete (displayFields as any).initialEstimate`). -/
def processFNOL (text : Str) : FNOLOutput :=
  let f := extractAll text
  let missing := missingFields f
  let r := getRoutingDecision f missing
  { extractedFields := (allPairs f).filter (fun p => p.1 ≠ "initialEstimate")
    missingFields := missing
    recommendedRoute := r.recommendedRoute
    reasoning := r.reasoning }

/-- Modelled from the spec: a valid numeric literal `Digits [ . Digits ]`
(at least one digit), the shape `parseFloat` accepts on a stripped string. -/
def isNumeral (p : Str) : Bool :=
  let d1 := p.takeWhile Char.isDigit
  match p.dropWhile Char.isDigit with
  | [] => !d1.isEmpty
  | c :: r =>
    if c = '.' then r.all Char.isDigit && (!d1.isEmpty || !r.isEmpty) else false

/-- Modelled from the spec: the exact decimal value of a valid numeral. -/
def numValue (p : Str) : ℚ :=
  let d1 := p.takeWhile Char.isDigit
  match p.dropWhile Char.isDigit with
  | [] => (digitsToNat d1 : ℚ)
  | c :: r =>
    if c = '.' then
      (digitsToNat d1 : ℚ) +
        (digitsToNat (r.takeWhile Char.isDigit) : ℚ) /
          (10 : ℚ) ^ (r.takeWhile Char.isDigit).length
    else (digitsToNat d1 : ℚ)

/-- The longest leading substring of `s` that can be part of a numeral:
digits, then optionally a dot and further digits. -/
def canonicalNumPrefix (s : Str) : Str :=
  let d1 := s.takeWhile Char.isDigit
  let r := s.dropWhile Char.isDigit
  if r.head? = some '.' then d1 ++ '.' :: r.tail.takeWhile Char.isDigit else d1

/-- The regex metacharacters of ECMAScript patterns. -/
def regexMetachars : Str :=
  ['\\', '^', '$', '.', '|', '?', '*', '+', '(', ')', '[', ']',
   Char.ofNat 0x7B, Char.ofNat 0x7D]

/-- The fixed set of field labels `processFNOL` passes to `extractField`. -/
def usedLabels : List Str :=
  ["Attachments".data, "Estimated Damage".data, "Policy Number".data,
   "Policyholder Name".data, "Effective Dates".data, "Date".data, "Time".data,
   "Location".data, "Description".data, "Claimant".data, "Third Parties".data,
   "Contact Details".data, "Asset Type".data, "Asset ID".data,
   "Claim Type".data]

/-- Modelled from the spec: label matching with every label character taken
literally (the behaviour of an escaped label). -/
def matchLabelLit : Str → Str → Option Str
  | [], s => some s
  | _ :: _, [] => none
  | pc :: ps, tc :: ts =>
    if charCI pc tc then matchLabelLit ps ts else none

/-- Modelled from the spec: `matchAt` with the escaped-label matcher. -/
def matchAtLit (label : Str) (s : Str) : Option Str :=
  wsThen (dashThen (wsThen (fun s3 =>
    (matchLabelLit label s3).bind (colonThen (wsThen dotPlus))))) s

/-- Modelled from the spec: `findFrom` with the escaped-label matcher. -/
def findFromLit (label : Str) : Bool → Str → Option Str
  | atStart, [] => if atStart then matchAtLit label [] else none
  | atStart, c :: cs =>
    match (if atStart then matchAtLit label (c :: cs) else none) with
    | some cap => some cap
    | none => findFromLit label (isLineTerm c) cs

/-- Modelled from the spec: `extractField` with the escaped-label matcher. -/
def extractFieldLit (text : Str) (fieldName : Str) : Option Str :=
  (findFromLit fieldName true text).map jsTrim

/-- A complete, non-fraud, non-injury document whose estimate string
"25,000" sits exactly on the threshold. -/
def docBoundaryStd : Str :=
  "- Claim Type: Auto\n- Attachments: photo.jpg\n- Estimated Damage: 25,000".data

/-- A complete, non-fraud, non-injury document whose estimate string
"24,999.99" is just below the threshold. -/
def docBoundaryFast : Str :=
  "- Claim Type: Auto\n- Attachments: photo.jpg\n- Estimated Damage: 24,999.99".data

/-- A complete document with a fraud keyword, a high estimate and an injury
claim type. -/
def docFraud : Str :=
  "- Claim Type: Injury\n- Attachments: a.jpg\n- Estimated Damage: $90,000\n- Description: a staged accident".data

/-- A complete, non-fraud document with an injury claim type and a high
estimate. -/
def docInjury : Str :=
  "- Claim Type: Bodily Injury\n- Attachments: a.jpg\n- Estimated Damage: $90,000\n- Description: rear-ended at a stoplight".data

/-- A document exercising the punctuated "Asset ID" label. -/
def docAsset : Str := "- Asset ID: A-99\n- Claim Type: Auto".data

/-! ### Unfolding lemmas for the record projections -/

theorem processFNOL_route (text : Str) :
    (processFNOL text).recommendedRoute =
      (getRoutingDecision (extractAll text) (missingFields (extractAll text))).recommendedRoute :=
  rfl

theorem processFNOL_reasoning (text : Str) :
    (processFNOL text).reasoning =
      (getRoutingDecision (extractAll text) (missingFields (extractAll text))).reasoning :=
  rfl

theorem processFNOL_missingFields (text : Str) :
    (processFNOL text).missingFields = missingFields (extractAll text) :=
  rfl

theorem processFNOL_extractedFields (text : Str) :
    (processFNOL text).extractedFields =
      (allPairs (extractAll text)).filter (fun p => p.1 ≠ "initialEstimate") :=
  rfl

theorem extractAll_attachments (text : Str) :
    (extractAll text).attachments =
      match extractField text "Attachments".data with
      | some raw => if raw.isEmpty then none else some ((splitComma raw).map jsTrim)
      | none => none :=
  rfl

theorem extractAll_initialEstimate (text : Str) :
    (extractAll text).initialEstimate =
      parseEstimate (extractField text "Estimated Damage".data) :=
  rfl

theorem missingFields_eq_nil_iff (f : ExtractedFields) :
    missingFields f = [] ↔
      (isTruthy f.claimType = true ∧ f.attachments.isSome = true ∧
       f.initialEstimate.isSome = true) := by
  unfold missingFields
  cases h1 : isTruthy f.claimType <;> cases h2 : f.attachments.isSome <;>
    cases h3 : f.initialEstimate.isSome <;> simp

theorem splitComma_ne_nil (s : Str) : splitComma s ≠ [] := by
  cases s with
  | nil => simp [splitComma]
  | cons c cs =>
    unfold splitComma
    by_cases hc : c = ','
    · simp [hc]
    · simp only [hc, if_false]
      cases splitComma cs <;> simp

/-! ### C1 -/

/-- C1: whenever the mandatory fields (claim type, attachments, derived
numeric estimate) are not all present, `processFNOL` routes to
"Manual Review" and the reasoning lists exactly the missing field names,
comma-joined, in the fixed check order claim type, attachments, numeric
estimate. -/
theorem C1_missing_mandatory_manual_review (text : Str)
    (h : ¬ (isTruthy (extractAll text).claimType = true ∧
            (extractAll text).attachments.isSome = true ∧
            (extractAll text).initialEstimate.isSome = true)) :
    (processFNOL text).recommendedRoute = "Manual Review" ∧
    (processFNOL text).reasoning =
      "Mandatory field(s) are missing or invalid: " ++
      String.intercalate ", "
        ((if isTruthy (extractAll text).claimType then [] else ["Claim Type"]) ++
         (if (extractAll text).attachments.isSome then [] else ["Attachments"]) ++
         (if (extractAll text).initialEstimate.isSome then []
          else ["Initial Estimate (derived from Estimated Damage)"])) ++
      ". Claim requires manual data entry and validation." := by
  have hne : missingFields (extractAll text) ≠ [] := by
    intro hnil
    exact h ((missingFields_eq_nil_iff _).mp hnil)
  have hlen : (missingFields (extractAll text)).length > 0 := by
    cases hm : missingFields (extractAll text) with
    | nil => exact absurd hm hne
    | cons a l => simp
  refine ⟨?_, ?_⟩
  · rw [processFNOL_route]
    unfold getRoutingDecision
    rw [if_pos hlen]
  · rw [processFNOL_reasoning]
    unfold getRoutingDecision
    rw [if_pos hlen]
    rfl

/-- C1 witness: the empty document misses every mandatory field. -/
theorem C1_witness :
    (processFNOL []).recommendedRoute = "Manual Review" :=
  (C1_missing_mandatory_manual_review [] (by decide)).1

/-! ### C3 (code behaviour at the failing inputs) -/

/-- C3: the code deviates from the claimed line-bound extraction.  Because
`\s` in the pattern also matches line terminators, the label line
"- Claim Type:" with nothing after the colon captures "Auto" from the NEXT
line; and a whitespace-only remainder is returned as the empty string (the
guard `match[1]` tests the capture before trimming), not as the absence
marker. -/
theorem C3_extractor_line_capture :
    extractField "- Claim Type:\nAuto".data "Claim Type".data =
      some "Auto".data ∧
    extractField "- Claim Type: \t".data "Claim Type".data = some [] := by
  constructor
  · rfl
  · rfl

/-! ### C5 -/

/-- C5: for every complete document whose (lower-cased) description contains
one of the keywords "fraud", "inconsistent", "staged", `processFNOL` routes
to "Investigation Flag" with the fixed potential-fraud sentence, with no
condition on damage amount or claim type. -/
theorem C5_fraud_investigation_flag (text : Str)
    (hc : missingFields (extractAll text) = [])
    (hf : (fraudKeywords.any (fun keyword =>
      containsSub keyword (lowerStr ((extractAll text).description.getD [])))) = true) :
    (processFNOL text).recommendedRoute = "Investigation Flag" ∧
    (processFNOL text).reasoning =
      "The claim description contains keywords suggesting potential fraud. It will be routed to the special investigation unit." := by
  rw [processFNOL_route, processFNOL_reasoning, hc]
  unfold getRoutingDecision
  simp only [List.length_nil, gt_iff_lt, lt_self_iff_false, if_false, hf,
    if_true]
  constructor <;> trivial

/-- C5 witness: a staged-accident description outranks both the injury type
and the $90,000 estimate. -/
theorem C5_witness :
    (processFNOL docFraud).recommendedRoute = "Investigation Flag" :=
  (C5_fraud_investigation_flag docFraud (by decide) (by decide)).1

/-! ### C6 -/

/-- C6: for every complete document with no fraud keyword in the description
and a claim type containing "injury" case-insensitively, `processFNOL`
routes to "Specialist Queue" with the fixed injury sentence. -/
theorem C6_injury_specialist_queue (text : Str)
    (hc : missingFields (extractAll text) = [])
    (hf : (fraudKeywords.any (fun keyword =>
      containsSub keyword (lowerStr ((extractAll text).description.getD [])))) = false)
    (hi : containsSub "injury".data
      (lowerStr ((extractAll text).claimType.getD [])) = true) :
    (processFNOL text).recommendedRoute = "Specialist Queue" ∧
    (processFNOL text).reasoning =
      "The claim is of type 'Injury' and requires handling by a specialist." := by
  rw [processFNOL_route, processFNOL_reasoning, hc]
  unfold getRoutingDecision
  simp only [List.length_nil, gt_iff_lt, lt_self_iff_false, if_false, hf, hi,
    Bool.false_eq_true, if_true]
  constructor <;> trivial

/-- C6 witness: claim type "Bodily Injury" with a clean description. -/
theorem C6_witness :
    (processFNOL docInjury).recommendedRoute = "Specialist Queue" :=
  (C6_injury_specialist_queue docInjury (by decide) (by decide) (by decide)).1

/-! ### C8 -/

/-- C8: when the completeness report is empty the derived numeric estimate is
present, so rule 4's unguarded comparison reads the actual parsed value,
never the null fallback. -/
theorem C8_estimate_present_for_rule4 (text : Str)
    (h : missingFields (extractAll text) = []) :
    ((extractAll text).initialEstimate).isSome = true ∧
    ∃ v : ℚ, (extractAll text).initialEstimate = some v ∧
      (extractAll text).initialEstimate.getD 0 = v := by
  have hp := (missingFields_eq_nil_iff _).mp h
  refine ⟨hp.2.2, ?_⟩
  cases he : (extractAll text).initialEstimate with
  | none => rw [he] at hp; simp at hp
  | some v => exact ⟨v, rfl, by simp⟩

/-- C8 witness: a complete document has a present estimate. -/
theorem C8_witness :
    ((extractAll docBoundaryStd).initialEstimate).isSome = true :=
  (C8_estimate_present_for_rule4 docBoundaryStd (by decide)).1

/-! ### C2 -/

/-- C2: for complete, non-fraud, non-injury documents the route is
"Fast-track" exactly when the derived estimate is strictly below 25000 and
"Standard Review" otherwise; the raw strings "25,000" and "24,999.99"
normalize to exactly 25000 and 24999.99 = 2499999/100 < 25000, and the
corresponding boundary documents route to "Standard Review" and
"Fast-track". -/
theorem C2_threshold_routing :
    (∀ text : Str,
      missingFields (extractAll text) = [] →
      (fraudKeywords.any (fun keyword =>
        containsSub keyword (lowerStr ((extractAll text).description.getD [])))) = false →
      containsSub "injury".data (lowerStr ((extractAll text).claimType.getD [])) = false →
      (processFNOL text).recommendedRoute =
        (if (extractAll text).initialEstimate.getD 0 < 25000 then "Fast-track"
         else "Standard Review")) ∧
    parseEstimate (some "25,000".data) = some 25000 ∧
    (∃ v : ℚ, parseEstimate (some "24,999.99".data) = some v ∧
      v = 2499999 / 100 ∧ v < 25000) ∧
    (processFNOL docBoundaryStd).recommendedRoute = "Standard Review" ∧
    (processFNOL docBoundaryFast).recommendedRoute = "Fast-track" := by
  have hgen : ∀ text : Str,
      missingFields (extractAll text) = [] →
      (fraudKeywords.any (fun keyword =>
        containsSub keyword (lowerStr ((extractAll text).description.getD [])))) = false →
      containsSub "injury".data (lowerStr ((extractAll text).claimType.getD [])) = false →
      (processFNOL text).recommendedRoute =
        (if (extractAll text).initialEstimate.getD 0 < 25000 then "Fast-track"
         else "Standard Review") := by
    intro text hc hf hi
    rw [processFNOL_route, hc]
    unfold getRoutingDecision
    simp only [List.length_nil, gt_iff_lt, lt_self_iff_false, if_false, hf, hi,
      Bool.false_eq_true]
    by_cases hlt : (extractAll text).initialEstimate.getD 0 < (25000 : ℚ)
    · simp [hlt]
    · simp [hlt]
  have hestd : (extractAll docBoundaryStd).initialEstimate = some 25000 := rfl
  have hefast : (extractAll docBoundaryFast).initialEstimate =
      some ((24999 : ℚ) + (99 : ℚ) / (10 : ℚ) ^ 2) := rfl
  refine ⟨hgen, rfl, ?_, ?_, ?_⟩
  · exact ⟨(24999 : ℚ) + (99 : ℚ) / (10 : ℚ) ^ 2, rfl, by norm_num, by norm_num⟩
  · rw [hgen docBoundaryStd (by decide) (by decide) (by decide), hestd]
    rw [Option.getD_some, if_neg (by norm_num)]
  · rw [hgen docBoundaryFast (by decide) (by decide) (by decide), hefast]
    rw [Option.getD_some, if_pos (by norm_num)]

/-- C2 witness: the below-threshold boundary document. -/
theorem C2_witness :
    (processFNOL docBoundaryFast).recommendedRoute =
      (if (extractAll docBoundaryFast).initialEstimate.getD 0 < 25000
       then "Fast-track" else "Standard Review") :=
  C2_threshold_routing.1 docBoundaryFast (by decide) (by decide) (by decide)

/-! ### C7 -/

theorem labelCharMatch_eq_charCI (pc tc : Char) (h : pc ∉ regexMetachars) :
    labelCharMatch pc tc = charCI pc tc := by
  unfold labelCharMatch
  rw [if_neg]
  intro h'
  rw [h'] at h
  exact h (by decide)

theorem matchLabel_eq_lit (l : Str) (h : ∀ c ∈ l, c ∉ regexMetachars) :
    ∀ s, matchLabel l s = matchLabelLit l s := by
  induction l with
  | nil => intro s; rfl
  | cons pc ps ih =>
    intro s
    cases s with
    | nil => rfl
    | cons tc ts =>
      unfold matchLabel matchLabelLit
      rw [labelCharMatch_eq_charCI pc tc (h pc (by simp))]
      cases hcc : charCI pc tc
      · simp
      · simp only [if_true]
        exact ih (fun c hc => h c (List.mem_cons_of_mem _ hc)) ts

theorem wsThen_congr (k k' : Str → Option Str) (h : ∀ s, k s = k' s) :
    ∀ s, wsThen k s = wsThen k' s := by
  intro s
  induction s with
  | nil => exact h []
  | cons c cs ih =>
    unfold wsThen
    cases hc : isJsSpace c
    · simp only [Bool.false_eq_true, if_false]
      exact h _
    · simp only [if_true]
      rw [ih, h]

theorem matchAt_eq_lit (l : Str) (h : ∀ c ∈ l, c ∉ regexMetachars) :
    ∀ s, matchAt l s = matchAtLit l s := by
  intro s
  unfold matchAt matchAtLit
  apply wsThen_congr
  intro s1
  cases s1 with
  | nil => rfl
  | cons c cs =>
    simp only [dashThen]
    by_cases hc : c = '-'
    · rw [if_pos hc, if_pos hc]
      apply wsThen_congr
      intro s3
      rw [matchLabel_eq_lit l h s3]
    · rw [if_neg hc, if_neg hc]

theorem findFrom_eq_lit (l : Str) (h : ∀ c ∈ l, c ∉ regexMetachars) :
    ∀ b text, findFrom l b text = findFromLit l b text := by
  intro b text
  induction text generalizing b with
  | nil =>
    unfold findFrom findFromLit
    rw [matchAt_eq_lit l h]
  | cons c cs ih =>
    unfold findFrom findFromLit
    rw [matchAt_eq_lit l h]
    cases (if b then matchAtLit l (c :: cs) else none) with
    | some cap => rfl
    | none => exact ih _

/-- C7: none of the labels the extractor is called with contains a regex
metacharacter, and for any such clean label the extractor behaves exactly as
it would with the label escaped (every character matched literally). -/
theorem C7_used_labels_literal :
    (usedLabels.all (fun l => l.all (fun c => !(regexMetachars.contains c))) = true) ∧
    (∀ l : Str, (∀ c ∈ l, c ∉ regexMetachars) →
      ∀ text : Str, extractField text l = extractFieldLit text l) := by
  refine ⟨by decide, ?_⟩
  intro l h text
  unfold extractField extractFieldLit
  rw [findFrom_eq_lit l h]

/-- C7 witness: the "Asset ID" label extracts identically to its escaped
form. -/
theorem C7_witness :
    extractField docAsset "Asset ID".data = extractFieldLit docAsset "Asset ID".data :=
  C7_used_labels_literal.2 "Asset ID".data (by decide) docAsset

/-! ### C9 -/

/-- C9: the attachments attribute is the absence marker or the non-empty
comma-split, token-trimmed list of the raw value; an absent raw value gives
the marker (never an empty list); and the completeness report cites
"Attachments" exactly when the attribute is the marker. -/
theorem C9_attachments_invariant (text : Str) :
    ((extractAll text).attachments = none ∨
      ∃ raw, extractField text "Attachments".data = some raw ∧ raw ≠ [] ∧
        (extractAll text).attachments = some ((splitComma raw).map jsTrim) ∧
        (splitComma raw).map jsTrim ≠ []) ∧
    (extractField text "Attachments".data = none →
      (extractAll text).attachments = none) ∧
    ("Attachments" ∈ (processFNOL text).missingFields ↔
      (extractAll text).attachments = none) := by
  refine ⟨?_, ?_, ?_⟩
  · rw [extractAll_attachments]
    cases hr : extractField text "Attachments".data with
    | none => left; rfl
    | some raw =>
      cases raw with
      | nil => left; rfl
      | cons c cs =>
        right
        refine ⟨c :: cs, rfl, by simp, rfl, ?_⟩
        cases hsc : splitComma (c :: cs) with
        | nil => exact absurd hsc (splitComma_ne_nil _)
        | cons a l => simp
  · intro hr
    rw [extractAll_attachments, hr]
  · rw [processFNOL_missingFields]
    unfold missingFields
    cases ha : (extractAll text).attachments with
    | none =>
      cases h1 : isTruthy (extractAll text).claimType <;>
        cases h3 : (extractAll text).initialEstimate.isSome <;> simp
    | some l =>
      cases h1 : isTruthy (extractAll text).claimType <;>
        cases h3 : (extractAll text).initialEstimate.isSome <;> simp

/-- C9 witness: a concrete document's attachments invariant. -/
theorem C9_witness :
    "Attachments" ∈ (processFNOL []).missingFields ↔
      (extractAll []).attachments = none :=
  (C9_attachments_invariant []).2.2

/-! ### C10 -/

/-- C10: the output `extractedFields` object holds every attribute of the
internal record except the derived `initialEstimate`, each bound to exactly
the internally extracted value (absent values as explicit null entries), and
the `initialEstimate` key does not occur. -/
theorem C10_display_fields (text : Str) :
    (processFNOL text).extractedFields =
      [("policyNumber", optStrVal (extractAll text).policyNumber),
       ("policyholderName", optStrVal (extractAll text).policyholderName),
       ("effectiveDates", optStrVal (extractAll text).effectiveDates),
       ("incidentDate", optStrVal (extractAll text).incidentDate),
       ("incidentTime", optStrVal (extractAll text).incidentTime),
       ("location", optStrVal (extractAll text).location),
       ("description", optStrVal (extractAll text).description),
       ("claimant", optStrVal (extractAll text).claimant),
       ("thirdParties", optStrVal (extractAll text).thirdParties),
       ("contactDetails", optStrVal (extractAll text).contactDetails),
       ("assetType", optStrVal (extractAll text).assetType),
       ("assetId", optStrVal (extractAll text).assetId),
       ("estimatedDamage", optStrVal (extractAll text).estimatedDamage),
       ("claimType", optStrVal (extractAll text).claimType),
       ("attachments", optListVal (extractAll text).attachments)] ∧
    ∀ v : FieldVal, ("initialEstimate", v) ∉ (processFNOL text).extractedFields := by
  have h1 : (processFNOL text).extractedFields =
      [("policyNumber", optStrVal (extractAll text).policyNumber),
       ("policyholderName", optStrVal (extractAll text).policyholderName),
       ("effectiveDates", optStrVal (extractAll text).effectiveDates),
       ("incidentDate", optStrVal (extractAll text).incidentDate),
       ("incidentTime", optStrVal (extractAll text).incidentTime),
       ("location", optStrVal (extractAll text).location),
       ("description", optStrVal (extractAll text).description),
       ("claimant", optStrVal (extractAll text).claimant),
       ("thirdParties", optStrVal (extractAll text).thirdParties),
       ("contactDetails", optStrVal (extractAll text).contactDetails),
       ("assetType", optStrVal (extractAll text).assetType),
       ("assetId", optStrVal (extractAll text).assetId),
       ("estimatedDamage", optStrVal (extractAll text).estimatedDamage),
       ("claimType", optStrVal (extractAll text).claimType),
       ("attachments", optListVal (extractAll text).attachments)] := rfl
  refine ⟨h1, ?_⟩
  intro v hv
  rw [h1] at hv
  simp at hv

/-- C10 witness: the `initialEstimate` key is absent from the empty
document's output. -/
theorem C10_witness :
    ("initialEstimate", FieldVal.null) ∉ (processFNOL []).extractedFields :=
  (C10_display_fields []).2 FieldVal.null

/-! ### C4: prefix-parse characterization of the estimate normalizer -/

theorem isEmpty_true_iff (l : Str) : l.isEmpty = true ↔ l = [] := by
  cases l <;> simp

theorem startsWith_iff (p s : Str) :
    startsWithStr p s = true ↔ ∃ t, p ++ t = s := by
  induction p generalizing s with
  | nil =>
    simp [startsWithStr]
  | cons c cs ih =>
    cases s with
    | nil =>
      simp [startsWithStr]
    | cons d ds =>
      simp only [startsWithStr, Bool.and_eq_true, decide_eq_true_eq, ih,
        List.cons_append, List.cons.injEq]
      constructor
      · rintro ⟨hcd, t, ht⟩
        exact ⟨t, hcd, ht⟩
      · rintro ⟨t, hcd, ht⟩
        exact ⟨hcd, t, ht⟩

theorem startsWith_append_self (a b : Str) : startsWithStr a (a ++ b) = true :=
  (startsWith_iff a (a ++ b)).mpr ⟨b, rfl⟩

theorem startsWith_length_le (p s : Str) (h : startsWithStr p s = true) :
    p.length ≤ s.length := by
  obtain ⟨t, ht⟩ := (startsWith_iff p s).mp h
  rw [← ht, List.length_append]
  exact Nat.le_add_right _ _

theorem startsWith_eq_of_length (p q s : Str) (hp : startsWithStr p s = true)
    (hq : startsWithStr q s = true) (hl : p.length = q.length) : p = q := by
  obtain ⟨t, ht⟩ := (startsWith_iff p s).mp hp
  obtain ⟨u, hu⟩ := (startsWith_iff q s).mp hq
  exact List.append_inj_left (ht.trans hu.symm) hl

theorem startsWith_split (q a b : Str) (h : startsWithStr q (a ++ b) = true) :
    startsWithStr q a = true ∨
      ∃ q2, q = a ++ q2 ∧ startsWithStr q2 b = true := by
  induction a generalizing q with
  | nil => exact Or.inr ⟨q, (List.nil_append q).symm, h⟩
  | cons x a ih =>
    cases q with
    | nil => exact Or.inl rfl
    | cons y q' =>
      simp only [List.cons_append, startsWithStr, Bool.and_eq_true,
        decide_eq_true_eq] at h
      obtain ⟨hyx, h'⟩ := h
      rcases ih q' h' with hl | ⟨q2, hq2, hs2⟩
      · left
        simp [startsWithStr, hyx, hl]
      · right
        exact ⟨q2, by rw [hq2, hyx, List.cons_append], hs2⟩

theorem startsWith_takeWhile_of_all (p : Char → Bool) (q l : Str)
    (hq : startsWithStr q l = true) (hall : q.all p = true) :
    startsWithStr q (l.takeWhile p) = true := by
  induction q generalizing l with
  | nil => rfl
  | cons y q' ih =>
    cases l with
    | nil => exact absurd hq (by simp [startsWithStr])
    | cons z ls =>
      simp only [startsWithStr, Bool.and_eq_true, decide_eq_true_eq] at hq
      obtain ⟨hyz, hq'⟩ := hq
      simp only [List.all_cons, Bool.and_eq_true] at hall
      have hpz : p z = true := hyz ▸ hall.1
      rw [List.takeWhile_cons_of_pos hpz]
      simp only [startsWithStr, Bool.and_eq_true, decide_eq_true_eq]
      exact ⟨hyz, ih ls hq' hall.2⟩

theorem dropWhile_head_false (p : Char → Bool) (l : Str) (c : Char) (cs : Str)
    (h : l.dropWhile p = c :: cs) : p c = false := by
  induction l with
  | nil => exact absurd h (by simp)
  | cons x xs ih =>
    rw [List.dropWhile_cons] at h
    by_cases hx : p x = true
    · rw [if_pos hx] at h
      exact ih h
    · rw [if_neg hx] at h
      cases h
      simp only [Bool.not_eq_true] at hx
      exact hx

theorem takeWhile_eq_self_of_all (p : Char → Bool) (l : Str)
    (h : l.all p = true) : l.takeWhile p = l := by
  induction l with
  | nil => rfl
  | cons x xs ih =>
    simp only [List.all_cons, Bool.and_eq_true] at h
    rw [List.takeWhile_cons_of_pos h.1, ih h.2]

theorem dropWhile_eq_nil_of_all (p : Char → Bool) (l : Str)
    (h : l.all p = true) : l.dropWhile p = [] := by
  induction l with
  | nil => rfl
  | cons x xs ih =>
    simp only [List.all_cons, Bool.and_eq_true] at h
    rw [List.dropWhile_cons_of_pos h.1, ih h.2]

theorem parseStripped_eq_nil (s : Str) (h : s.dropWhile Char.isDigit = []) :
    parseStripped s =
      (if (s.takeWhile Char.isDigit).isEmpty then none
       else some (digitsToNat (s.takeWhile Char.isDigit) : ℚ)) := by
  unfold parseStripped
  rw [h]

theorem parseStripped_eq_cons (s : Str) (c : Char) (r2 : Str)
    (h : s.dropWhile Char.isDigit = c :: r2) :
    parseStripped s =
      (if c = '.' then
        (if (s.takeWhile Char.isDigit).isEmpty &&
            (r2.takeWhile Char.isDigit).isEmpty then none
         else some ((digitsToNat (s.takeWhile Char.isDigit) : ℚ) +
           (digitsToNat (r2.takeWhile Char.isDigit) : ℚ) /
             (10 : ℚ) ^ (r2.takeWhile Char.isDigit).length))
       else if (s.takeWhile Char.isDigit).isEmpty then none
       else some (digitsToNat (s.takeWhile Char.isDigit) : ℚ)) := by
  unfold parseStripped
  rw [h]

theorem isNumeral_eq_nil (p : Str) (h : p.dropWhile Char.isDigit = []) :
    isNumeral p = !(p.takeWhile Char.isDigit).isEmpty := by
  unfold isNumeral
  rw [h]

theorem isNumeral_eq_cons (p : Str) (c : Char) (r : Str)
    (h : p.dropWhile Char.isDigit = c :: r) :
    isNumeral p =
      (if c = '.' then
        r.all Char.isDigit && (!(p.takeWhile Char.isDigit).isEmpty || !r.isEmpty)
       else false) := by
  unfold isNumeral
  rw [h]

theorem numValue_eq_nil (p : Str) (h : p.dropWhile Char.isDigit = []) :
    numValue p = (digitsToNat (p.takeWhile Char.isDigit) : ℚ) := by
  unfold numValue
  rw [h]

theorem numValue_eq_cons (p : Str) (c : Char) (r : Str)
    (h : p.dropWhile Char.isDigit = c :: r) :
    numValue p =
      (if c = '.' then
        (digitsToNat (p.takeWhile Char.isDigit) : ℚ) +
          (digitsToNat (r.takeWhile Char.isDigit) : ℚ) /
            (10 : ℚ) ^ (r.takeWhile Char.isDigit).length
       else (digitsToNat (p.takeWhile Char.isDigit) : ℚ)) := by
  unfold numValue
  rw [h]

theorem canonical_eq_nil (s : Str) (h : s.dropWhile Char.isDigit = []) :
    canonicalNumPrefix s = s.takeWhile Char.isDigit := by
  simp [canonicalNumPrefix, h]

theorem canonical_eq_dot (s : Str) (r2 : Str)
    (h : s.dropWhile Char.isDigit = '.' :: r2) :
    canonicalNumPrefix s =
      s.takeWhile Char.isDigit ++ '.' :: r2.takeWhile Char.isDigit := by
  simp [canonicalNumPrefix, h]

theorem canonical_eq_cons_ne (s : Str) (c : Char) (r2 : Str)
    (h : s.dropWhile Char.isDigit = c :: r2) (hc : c ≠ '.') :
    canonicalNumPrefix s = s.takeWhile Char.isDigit := by
  simp [canonicalNumPrefix, h, hc]

theorem canonical_isPref (s : Str) :
    startsWithStr (canonicalNumPrefix s) s = true := by
  cases hr : s.dropWhile Char.isDigit with
  | nil =>
    rw [canonical_eq_nil s hr]
    apply (startsWith_iff _ _).mpr
    exact ⟨s.dropWhile Char.isDigit, List.takeWhile_append_dropWhile _ _⟩
  | cons c r2 =>
    by_cases hc : c = '.'
    · subst hc
      rw [canonical_eq_dot s r2 hr]
      apply (startsWith_iff _ _).mpr
      refine ⟨r2.dropWhile Char.isDigit, ?_⟩
      rw [List.append_assoc, List.cons_append,
        List.takeWhile_append_dropWhile, ← hr,
        List.takeWhile_append_dropWhile]
    · rw [canonical_eq_cons_ne s c r2 hr hc]
      apply (startsWith_iff _ _).mpr
      exact ⟨s.dropWhile Char.isDigit, List.takeWhile_append_dropWhile _ _⟩

theorem isNumeral_all_digits (d : Str) (hall : d.all Char.isDigit = true)
    (hne : d.isEmpty = false) :
    isNumeral d = true ∧ numValue d = (digitsToNat d : ℚ) := by
  have hdrop : d.dropWhile Char.isDigit = [] := dropWhile_eq_nil_of_all _ _ hall
  have htake : d.takeWhile Char.isDigit = d := takeWhile_eq_self_of_all _ _ hall
  constructor
  · rw [isNumeral_eq_nil d hdrop, htake, hne]
    rfl
  · rw [numValue_eq_nil d hdrop, htake]

theorem canonical_spec (s : Str) (v : ℚ) (h : parseStripped s = some v) :
    isNumeral (canonicalNumPrefix s) = true ∧
    numValue (canonicalNumPrefix s) = v := by
  cases hr : s.dropWhile Char.isDigit with
  | nil =>
    rw [parseStripped_eq_nil s hr] at h
    by_cases he : (s.takeWhile Char.isDigit).isEmpty = true
    · rw [if_pos he] at h
      exact absurd h (by simp)
    · rw [if_neg he] at h
      simp only [Bool.not_eq_true] at he
      rw [canonical_eq_nil s hr]
      obtain ⟨h1, h2⟩ := isNumeral_all_digits _ (by simp) he
      exact ⟨h1, h2.trans (Option.some.inj h)⟩
  | cons c r2 =>
    by_cases hc : c = '.'
    · subst hc
      rw [parseStripped_eq_cons s '.' r2 hr, if_pos rfl] at h
      by_cases hcond : ((s.takeWhile Char.isDigit).isEmpty &&
          (r2.takeWhile Char.isDigit).isEmpty) = true
      · rw [if_pos hcond] at h
        exact absurd h (by simp)
      · rw [if_neg hcond] at h
        have hv := Option.some.inj h
        rw [canonical_eq_dot s r2 hr]
        have hd1 : ∀ a ∈ s.takeWhile Char.isDigit, Char.isDigit a :=
          fun a ha => List.mem_takeWhile_imp ha
        have htk : (s.takeWhile Char.isDigit ++
            '.' :: r2.takeWhile Char.isDigit).takeWhile Char.isDigit =
            s.takeWhile Char.isDigit := by
          rw [List.takeWhile_append_of_pos hd1,
            List.takeWhile_cons_of_neg (by decide), List.append_nil]
        have hdp : (s.takeWhile Char.isDigit ++
            '.' :: r2.takeWhile Char.isDigit).dropWhile Char.isDigit =
            '.' :: r2.takeWhile Char.isDigit := by
          rw [List.dropWhile_append_of_pos hd1,
            List.dropWhile_cons_of_neg (by decide)]
        rw [isNumeral_eq_cons _ '.' _ hdp, if_pos rfl, htk,
          numValue_eq_cons _ '.' _ hdp, if_pos rfl, htk]
        constructor
        · rw [Bool.and_eq_true]
          refine ⟨by simp, ?_⟩
          cases ha : (s.takeWhile Char.isDigit).isEmpty <;>
            cases hb : (r2.takeWhile Char.isDigit).isEmpty <;> simp_all
        · rw [takeWhile_eq_self_of_all Char.isDigit
            (r2.takeWhile Char.isDigit) (by simp)]
          exact hv
    · rw [parseStripped_eq_cons s c r2 hr, if_neg hc] at h
      by_cases he : (s.takeWhile Char.isDigit).isEmpty = true
      · rw [if_pos he] at h
        exact absurd h (by simp)
      · rw [if_neg he] at h
        simp only [Bool.not_eq_true] at he
        rw [canonical_eq_cons_ne s c r2 hr hc]
        obtain ⟨h1, h2⟩ := isNumeral_all_digits _ (by simp) he
        exact ⟨h1, h2.trans (Option.some.inj h)⟩

theorem canonical_max (s q : Str) (hq : startsWithStr q s = true)
    (hnq : isNumeral q = true) : q.length ≤ (canonicalNumPrefix s).length := by
  have hd1le : (s.takeWhile Char.isDigit).length ≤
      (canonicalNumPrefix s).length := by
    cases hr : s.dropWhile Char.isDigit with
    | nil => rw [canonical_eq_nil s hr]
    | cons c r2 =>
      by_cases hc : c = '.'
      · subst hc
        rw [canonical_eq_dot s r2 hr]
        simp
      · rw [canonical_eq_cons_ne s c r2 hr hc]
  rw [← List.takeWhile_append_dropWhile Char.isDigit s] at hq
  rcases startsWith_split q _ _ hq with hqa | ⟨q2, hq2, hq2b⟩
  · exact le_trans (startsWith_length_le _ _ hqa) hd1le
  · cases q2 with
    | nil =>
      rw [hq2, List.append_nil]
      exact hd1le
    | cons c0 q3 =>
      obtain ⟨t, ht⟩ := (startsWith_iff _ _).mp hq2b
      have hc0 : Char.isDigit c0 = false :=
        dropWhile_head_false Char.isDigit s c0 (q3 ++ t) (by rw [← ht]; rfl)
      have hd1 : ∀ a ∈ s.takeWhile Char.isDigit, Char.isDigit a :=
        fun a ha => List.mem_takeWhile_imp ha
      have hqdp : q.dropWhile Char.isDigit = c0 :: q3 := by
        rw [hq2, List.dropWhile_append_of_pos hd1,
          List.dropWhile_cons_of_neg (by simp [hc0])]
      rw [isNumeral_eq_cons q c0 q3 hqdp] at hnq
      by_cases hc0dot : c0 = '.'
      · subst hc0dot
        rw [if_pos rfl, Bool.and_eq_true] at hnq
        have hq3all : q3.all Char.isDigit = true := hnq.1
        have hr : s.dropWhile Char.isDigit = '.' :: (q3 ++ t) := by
          rw [← ht]
          rfl
        rw [canonical_eq_dot s (q3 ++ t) hr]
        have htk : (q3 ++ t).takeWhile Char.isDigit =
            q3 ++ t.takeWhile Char.isDigit :=
          List.takeWhile_append_of_pos
            (fun a ha => List.all_eq_true.mp hq3all a ha)
        rw [hq2, htk]
        simp only [List.length_append, List.length_cons]
        omega
      · rw [if_neg hc0dot] at hnq
        exact absurd hnq (by simp)

theorem canonical_none (s : Str) (h : parseStripped s = none) (q : Str)
    (hq : startsWithStr q s = true) (hnq : isNumeral q = true) : False := by
  cases hr : s.dropWhile Char.isDigit with
  | nil =>
    rw [parseStripped_eq_nil s hr] at h
    by_cases he : (s.takeWhile Char.isDigit).isEmpty = true
    · have hs : s = [] := by
        have hh := List.takeWhile_append_dropWhile Char.isDigit s
        rw [hr, (isEmpty_true_iff _).mp he] at hh
        exact hh.symm
      subst hs
      cases q with
      | nil => exact absurd hnq (by decide)
      | cons y q' => exact absurd hq (by simp [startsWithStr])
    · rw [if_neg he] at h
      exact absurd h (by simp)
  | cons c r2 =>
    by_cases hc : c = '.'
    · subst hc
      rw [parseStripped_eq_cons s '.' r2 hr, if_pos rfl] at h
      by_cases hcond : ((s.takeWhile Char.isDigit).isEmpty &&
          (r2.takeWhile Char.isDigit).isEmpty) = true
      · rw [Bool.and_eq_true] at hcond
        obtain ⟨he1, he2⟩ := hcond
        have hd1nil : s.takeWhile Char.isDigit = [] := (isEmpty_true_iff _).mp he1
        have hd2nil : r2.takeWhile Char.isDigit = [] := (isEmpty_true_iff _).mp he2
        have hs : s = '.' :: r2 := by
          have hh := List.takeWhile_append_dropWhile Char.isDigit s
          rw [hr, hd1nil] at hh
          exact hh.symm
        cases q with
        | nil => exact absurd hnq (by decide)
        | cons y q' =>
          rw [hs] at hq
          simp only [startsWithStr, Bool.and_eq_true, decide_eq_true_eq] at hq
          obtain ⟨hy, hq'⟩ := hq
          subst hy
          have hqdp : ('.' :: q').dropWhile Char.isDigit = '.' :: q' :=
            List.dropWhile_cons_of_neg (by decide)
          have htk : ('.' :: q').takeWhile Char.isDigit = [] :=
            List.takeWhile_cons_of_neg (by decide)
          rw [isNumeral_eq_cons _ '.' q' hqdp, if_pos rfl, htk,
            Bool.and_eq_true] at hnq
          obtain ⟨hq'all, hor⟩ := hnq
          have hq'ne : q' ≠ [] := by
            intro hnil
            subst hnil
            simp at hor
          have hpref := startsWith_takeWhile_of_all Char.isDigit q' r2 hq' hq'all
          rw [hd2nil] at hpref
          cases q' with
          | nil => exact hq'ne rfl
          | cons z zs => exact absurd hpref (by simp [startsWithStr])
      · rw [if_neg hcond] at h
        exact absurd h (by simp)
    · rw [parseStripped_eq_cons s c r2 hr, if_neg hc] at h
      by_cases he : (s.takeWhile Char.isDigit).isEmpty = true
      · have hd1nil : s.takeWhile Char.isDigit = [] := (isEmpty_true_iff _).mp he
        have hs : s = c :: r2 := by
          have hh := List.takeWhile_append_dropWhile Char.isDigit s
          rw [hr, hd1nil] at hh
          exact hh.symm
        have hcdig : Char.isDigit c = false :=
          dropWhile_head_false Char.isDigit s c r2 hr
        cases q with
        | nil => exact absurd hnq (by decide)
        | cons y q' =>
          rw [hs] at hq
          simp only [startsWithStr, Bool.and_eq_true, decide_eq_true_eq] at hq
          obtain ⟨hy, hq'⟩ := hq
          subst hy
          have hqdp : (y :: q').dropWhile Char.isDigit = y :: q' :=
            List.dropWhile_cons_of_neg (by simp [hcdig])
          rw [isNumeral_eq_cons _ y q' hqdp, if_neg hc] at hnq
          exact absurd hnq (by simp)
      · rw [if_neg he] at h
        exact absurd h (by simp)

theorem parseStripped_some_iff (s : Str) (v : ℚ) :
    parseStripped s = some v ↔
      ∃ p, startsWithStr p s = true ∧ isNumeral p = true ∧ numValue p = v ∧
        ∀ q, startsWithStr q s = true → isNumeral q = true →
          q.length ≤ p.length := by
  constructor
  · intro h
    obtain ⟨h1, h2⟩ := canonical_spec s v h
    exact ⟨canonicalNumPrefix s, canonical_isPref s, h1, h2,
      fun q hq hnq => canonical_max s q hq hnq⟩
  · rintro ⟨p, hp, hnum, hval, hmax⟩
    cases hps : parseStripped s with
    | none => exact (canonical_none s hps p hp hnum).elim
    | some w =>
      obtain ⟨hcn, hcv⟩ := canonical_spec s w hps
      have h1 : p.length ≤ (canonicalNumPrefix s).length :=
        canonical_max s p hp hnum
      have h2 : (canonicalNumPrefix s).length ≤ p.length :=
        hmax _ (canonical_isPref s) hcn
      have hpc : p = canonicalNumPrefix s :=
        startsWith_eq_of_length p _ s hp (canonical_isPref s)
          (Nat.le_antisymm h1 h2)
      rw [hpc] at hval
      exact congrArg some (hcv.symm.trans hval)

/-- C4: the derived estimate is present exactly when the raw string is
present and the stripped digits-and-dots string has a valid leading numeric
parse; when present, the value is the exact decimal value of the longest
valid leading numeric prefix of the stripped string, so extraneous
non-numeric characters elsewhere in the original string never by themselves
cause absence. -/
theorem C4_estimate_normalization :
    parseEstimate none = none ∧
    (∀ s : Str, parseEstimate (some s) = parseStripped (s.filter isNumChar)) ∧
    (∀ s : Str, ∀ v : ℚ, (parseStripped s = some v ↔
      ∃ p, startsWithStr p s = true ∧ isNumeral p = true ∧ numValue p = v ∧
        ∀ q, startsWithStr q s = true → isNumeral q = true →
          q.length ≤ p.length)) ∧
    (∀ o : Option Str, (parseEstimate o).isSome = true ↔
      ∃ s, o = some s ∧ (parseStripped (s.filter isNumChar)).isSome = true) := by
  have h2 : ∀ s : Str, parseEstimate (some s) = parseStripped (s.filter isNumChar) := by
    intro s
    cases s <;> rfl
  refine ⟨rfl, h2, parseStripped_some_iff, ?_⟩
  intro o
  cases o with
  | none => simp [parseEstimate]
  | some s =>
    rw [h2 s]
    simp

/-- C4 witness: a concrete raw estimate string. -/
theorem C4_witness :
    parseEstimate (some "$1,500".data) =
      parseStripped ("$1,500".data.filter isNumChar) :=
  C4_estimate_normalization.2.1 "$1,500".data

end Policy
